import Mathlib

/-!
Verification of the developer-tooling scripts of this repository
(`scripts/build.py`, `scripts/format.py`, `scripts/lint.py`) against their
natural-language specification.

The scripts are shallowly embedded: paths are sequences of name components,
the external tools (clang-format, clang-tidy, cmake) are abstracted as
functions from their inputs to exit code / captured output, and the
asyncio bounded-concurrency fan-out of the lint runner is a labelled step
relation on task-status vectors.
-/

set_option autoImplicit false

/-! ## Path model

A filesystem path is the sequence of its name components, as exposed by
`pathlib.Path.parts`; the last component is the file name.  Components are
sequences of characters.
-/

/-- A path as its list of components (`pathlib.Path.parts`); the last
component is the file name. -/
abbrev PathParts := List (List Char)

/-- The file name of a path: its last component (`pathlib.Path.name`);
the empty name for the empty path. -/
def fileName (p : PathParts) : List Char := p.getLast?.getD []

/-- `Path.rglob ("*" + ext)` matches a file iff its name ends with `ext`
(the glob star matches any, possibly empty, run of non-separator
characters). -/
def matchesExt (ext : List Char) (p : PathParts) : Bool :=
  ext.isSuffixOf (fileName p)

/-- `exclude_dirs = {"build", "vcpkg_installed", ".cache", ".git"}`,
common to `format.py` and `lint.py`. -/
def exclude_dirs : List (List Char) :=
  ["build".toList, "vcpkg_installed".toList, ".cache".toList, ".git".toList]

/-- `any(excluded in file.parts for excluded in exclude_dirs)`: the skip
condition of both discovery loops. -/
def inExcludedDir (p : PathParts) : Bool :=
  exclude_dirs.any (fun d => p.contains d)

/-- Extension set of `lint.py`'s `find_cpp_files`:
`{".cc", ".cpp", ".cxx"}` (a Python set; iteration order is irrelevant
because the result is sorted). -/
def lintExtensions : List (List Char) :=
  [".cc".toList, ".cpp".toList, ".cxx".toList]

/-- Extension set of `format.py`'s `find_cpp_files`:
`{".h", ".hpp", ".cc", ".cpp", ".cxx"}`. -/
def formatExtensions : List (List Char) :=
  [".h".toList, ".hpp".toList, ".cc".toList, ".cpp".toList, ".cxx".toList]

/-- Comparator used for the final `sorted(files)`: Python compares paths
by their component tuples, i.e. lexicographically on `parts`. -/
def pathLe (a b : PathParts) : Bool := decide (a ≤ b)

/-- The common body of the two `find_cpp_files` functions: for each
extension, collect every path of the tree `fs` (the `rglob` enumeration
below the project root) whose name matches `*ext`, skipping paths with an
excluded component; finally `sorted(files)`. -/
def find_cpp_files (extensions : List (List Char)) (fs : List PathParts) :
    List PathParts :=
  let files := extensions.flatMap
    (fun ext => fs.filter (fun f => matchesExt ext f && !inExcludedDir f))
  files.mergeSort pathLe

/-- `find_cpp_files` of `scripts/lint.py` (lines 75–89). -/
def lint_find_cpp_files (fs : List PathParts) : List PathParts :=
  find_cpp_files lintExtensions fs

/-- `find_cpp_files` of `scripts/format.py` (lines 27–41). -/
def format_find_cpp_files (fs : List PathParts) : List PathParts :=
  find_cpp_files formatExtensions fs

/-! ## Lemmas about file discovery -/

theorem matchesExt_iff {ext : List Char} {p : PathParts} :
    matchesExt ext p = true ↔ ext <:+ fileName p := by
  simp [matchesExt, List.isSuffixOf_iff_suffix]

/-- Two lists that are both suffixes of a third but not suffixes of each
other cannot coexist. -/
theorem suffix_not_both {e1 e2 s : List Char} (h1 : e1 <:+ s) (h2 : e2 <:+ s)
    (h12 : ¬ e1 <:+ e2) (h21 : ¬ e2 <:+ e1) : False := by
  rcases List.suffix_or_suffix_of_suffix h1 h2 with h | h
  · exact h12 h
  · exact h21 h

/-- Membership in the discovery result: exactly the paths of the tree whose
name ends in one of the extensions and that contain no excluded component. -/
theorem mem_find_cpp_files {extensions : List (List Char)}
    {fs : List PathParts} {p : PathParts} :
    p ∈ find_cpp_files extensions fs ↔
      p ∈ fs ∧ (∃ ext ∈ extensions, ext <:+ fileName p) ∧
        inExcludedDir p = false := by
  unfold find_cpp_files
  rw [List.Perm.mem_iff (List.mergeSort_perm _ _)]
  simp only [List.mem_flatMap, List.mem_filter, Bool.and_eq_true,
    Bool.not_eq_true', matchesExt_iff]
  constructor
  · rintro ⟨ext, hext, hfs, hsuf, hexcl⟩
    exact ⟨hfs, ⟨ext, hext, hsuf⟩, hexcl⟩
  · rintro ⟨hfs, ⟨ext, hext, hsuf⟩, hexcl⟩
    exact ⟨ext, hext, hfs, hsuf, hexcl⟩

/-- If the extensions are pairwise not suffixes of one another, the
per-extension collections are pairwise disjoint, so over a duplicate-free
tree the collected list is duplicate-free. -/
theorem nodup_find_cpp_files {extensions : List (List Char)}
    {fs : List PathParts} (hfs : fs.Nodup)
    (hpw : extensions.Pairwise (fun e1 e2 => ¬ e1 <:+ e2 ∧ ¬ e2 <:+ e1)) :
    (find_cpp_files extensions fs).Nodup := by
  have hbase : ∀ exts : List (List Char),
      exts.Pairwise (fun e1 e2 => ¬ e1 <:+ e2 ∧ ¬ e2 <:+ e1) →
      (exts.flatMap (fun ext => fs.filter
        (fun f => matchesExt ext f && !inExcludedDir f))).Nodup := by
    intro exts
    induction exts with
    | nil => intro _; simp
    | cons e es ih =>
      intro hpw2
      rcases List.pairwise_cons.mp hpw2 with ⟨hhead, htail⟩
      rw [List.flatMap_cons]
      refine List.Nodup.append (hfs.filter _) (ih htail) ?_
      rw [List.disjoint_left]
      intro a ha hb
      rw [List.mem_filter, Bool.and_eq_true, matchesExt_iff] at ha
      rw [List.mem_flatMap] at hb
      obtain ⟨e2, he2, ha2⟩ := hb
      rw [List.mem_filter, Bool.and_eq_true, matchesExt_iff] at ha2
      exact suffix_not_both ha.2.1 ha2.2.1 (hhead e2 he2).1 (hhead e2 he2).2
  exact (List.mergeSort_perm _ pathLe).symm.nodup (hbase extensions hpw)

theorem pathLe_trans (a b c : PathParts) (hab : pathLe a b = true)
    (hbc : pathLe b c = true) : pathLe a c = true := by
  rw [pathLe, decide_eq_true_iff] at *
  exact le_trans hab hbc

theorem pathLe_total (a b : PathParts) : (pathLe a b || pathLe b a) = true := by
  rw [Bool.or_eq_true, pathLe, pathLe, decide_eq_true_iff, decide_eq_true_iff]
  exact le_total a b

/-- The discovery result is sorted by the path order. -/
theorem sorted_find_cpp_files (extensions : List (List Char))
    (fs : List PathParts) :
    (find_cpp_files extensions fs).Sorted (· ≤ ·) := by
  unfold find_cpp_files
  have h := List.sorted_mergeSort pathLe_trans pathLe_total
    (extensions.flatMap
      (fun ext => fs.filter (fun f => matchesExt ext f && !inExcludedDir f)))
  exact h.imp (fun hab => by rwa [pathLe, decide_eq_true_iff] at hab)

/-! ## Claim C6: discovery returns the sorted, duplicate-free, excluded-free
match set.  Determinism over an unchanged filesystem is definitional here:
`find_cpp_files` is a pure function of the tree enumeration, so two calls
on the same `fs` are the same term.  An empty result is an ordinary value,
not an error: the function is total. -/

/-- C6: for every (duplicate-free) enumeration `fs` of the tree below the
project root, both discovery functions return exactly the paths whose file
name ends in one of their configured extensions and that contain no
excluded component anywhere among their parts; the result is duplicate-free
and sorted in the path order. -/
theorem find_cpp_files_sorted_set (fs : List PathParts) (hfs : fs.Nodup) :
    (∀ p, p ∈ lint_find_cpp_files fs ↔
        p ∈ fs ∧ (∃ ext ∈ lintExtensions, ext <:+ fileName p) ∧
          inExcludedDir p = false) ∧
    (lint_find_cpp_files fs).Nodup ∧
    (lint_find_cpp_files fs).Sorted (· ≤ ·) ∧
    (∀ p, p ∈ format_find_cpp_files fs ↔
        p ∈ fs ∧ (∃ ext ∈ formatExtensions, ext <:+ fileName p) ∧
          inExcludedDir p = false) ∧
    (format_find_cpp_files fs).Nodup ∧
    (format_find_cpp_files fs).Sorted (· ≤ ·) :=
  ⟨fun _ => mem_find_cpp_files,
   nodup_find_cpp_files hfs (by decide),
   sorted_find_cpp_files _ _,
   fun _ => mem_find_cpp_files,
   nodup_find_cpp_files hfs (by decide),
   sorted_find_cpp_files _ _⟩

/-- A concrete four-entry tree used to instantiate the discovery claims:
a source file, a source file inside the build directory, a header, and a
text file. -/
def sampleTree : List PathParts :=
  [["src".toList, "a.cc".toList],
   ["build".toList, "b.cc".toList],
   ["include".toList, "c.h".toList],
   ["docs".toList, "readme.txt".toList]]

/-- The header path of `sampleTree`. -/
def sampleHeader : PathParts := ["include".toList, "c.h".toList]

/-- Witness for C6 at the concrete tree `sampleTree`. -/
theorem find_cpp_files_sorted_set_witness :
    sampleTree.Nodup ∧
    ((∀ p, p ∈ lint_find_cpp_files sampleTree ↔
        p ∈ sampleTree ∧ (∃ ext ∈ lintExtensions, ext <:+ fileName p) ∧
          inExcludedDir p = false) ∧
    (lint_find_cpp_files sampleTree).Nodup ∧
    (lint_find_cpp_files sampleTree).Sorted (· ≤ ·) ∧
    (∀ p, p ∈ format_find_cpp_files sampleTree ↔
        p ∈ sampleTree ∧ (∃ ext ∈ formatExtensions, ext <:+ fileName p) ∧
          inExcludedDir p = false) ∧
    (format_find_cpp_files sampleTree).Nodup ∧
    (format_find_cpp_files sampleTree).Sorted (· ≤ ·)) :=
  ⟨by decide, find_cpp_files_sorted_set sampleTree (by decide)⟩

/-! ## Claim C10: headers are formatted, never linted -/

/-- C10: a path whose file name ends in `.h` or `.hpp` (and that is not in
an excluded directory) is discovered by `format.py` but is never discovered
by `lint.py`, on every filesystem state. -/
theorem headers_formatted_never_linted (fs : List PathParts) (p : PathParts)
    (hp : p ∈ fs) (hexcl : inExcludedDir p = false)
    (hdr : ".h".toList <:+ fileName p ∨ ".hpp".toList <:+ fileName p) :
    p ∈ format_find_cpp_files fs ∧ p ∉ lint_find_cpp_files fs := by
  constructor
  · show p ∈ find_cpp_files formatExtensions fs
    rw [mem_find_cpp_files]
    refine ⟨hp, ?_, hexcl⟩
    rcases hdr with h | h
    · exact ⟨".h".toList, by decide, h⟩
    · exact ⟨".hpp".toList, by decide, h⟩
  · intro hmem
    rw [show lint_find_cpp_files fs = find_cpp_files lintExtensions fs
      from rfl, mem_find_cpp_files] at hmem
    obtain ⟨-, ⟨ext, hext, hsuf⟩, -⟩ := hmem
    simp only [lintExtensions, List.mem_cons, List.not_mem_nil,
      or_false] at hext
    rcases hext with rfl | rfl | rfl <;> rcases hdr with h | h <;>
      exact suffix_not_both hsuf h (by decide) (by decide)

/-- Witness for C10: the header `include/c.h` of `sampleTree` is in the
formatter's discovery set and not in the linter's. -/
theorem headers_formatted_never_linted_witness :
    sampleHeader ∈ sampleTree ∧ inExcludedDir sampleHeader = false ∧
    (".h".toList <:+ fileName sampleHeader ∨
      ".hpp".toList <:+ fileName sampleHeader) ∧
    (sampleHeader ∈ format_find_cpp_files sampleTree ∧
      sampleHeader ∉ lint_find_cpp_files sampleTree) :=
  ⟨by decide, by decide, by decide,
   headers_formatted_never_linted sampleTree sampleHeader (by decide)
     (by decide) (by decide)⟩

/-! ## Claim C1: the lint runner's bounded-concurrency fan-out

`lint_all_files` creates one `lint_file` coroutine per file and runs them
on a single-threaded cooperative event loop.  Each `lint_file` enters
`async with semaphore` (an `asyncio.Semaphore(jobs)`) before spawning its
clang-tidy subprocess and leaves it when the subprocess has been awaited.
We embed this as a labelled step relation on a vector of task statuses:
a task may move `pending → running` (acquire one of the `K` permits) only
when fewer than `K` tasks are running, and `running → done` releases its
permit.  "In flight" is exactly the `running` status. -/

/-- Status of one per-file lint task: not yet holding the semaphore,
holding it (its subprocess in flight), or completed. -/
inductive TStatus where
  | pending
  | running
  | done
deriving DecidableEq

/-- Number of in-flight operations: tasks currently holding a permit. -/
def countRunning (ts : List TStatus) : Nat :=
  ts.countP (fun s => decide (s = .running))

/-- Observable scheduler events: task `i` acquires the semaphore and
spawns its subprocess, or task `i`'s subprocess ends and it releases. -/
inductive FanLabel where
  | start (i : Nat)
  | finish (i : Nat)
deriving DecidableEq

/-- One scheduler step of the fan-out with concurrency limit `K`
(the `--jobs` value handed to `asyncio.Semaphore`). -/
inductive FanStep (K : Nat) : List TStatus → FanLabel → List TStatus → Prop where
  | start {ts : List TStatus} {i : Nat} :
      ts[i]? = some .pending → countRunning ts < K →
      FanStep K ts (.start i) (ts.set i .running)
  | finish {ts : List TStatus} {i : Nat} :
      ts[i]? = some .running →
      FanStep K ts (.finish i) (ts.set i .done)

/-- A run of the fan-out: a sequence of scheduler steps with its trace of
labels. -/
inductive FanExec (K : Nat) : List TStatus → List FanLabel → List TStatus → Prop where
  | nil {ts : List TStatus} : FanExec K ts [] ts
  | cons {ts ts' ts'' : List TStatus} {l : FanLabel} {ls : List FanLabel} :
      FanStep K ts l ts' → FanExec K ts' ls ts'' → FanExec K ts (l :: ls) ts''

/-- Initial state of `lint_all_files` over `N` discovered files. -/
def allPending (N : Nat) : List TStatus := List.replicate N .pending

/-- Final state: every file's task has completed. -/
def allDone (N : Nat) : List TStatus := List.replicate N .done

/-- Each step keeps the number of in-flight operations at or below `K`. -/
theorem countRunning_le_of_step {K : Nat} {ts ts' : List TStatus}
    {l : FanLabel} (h : FanStep K ts l ts') (hK : countRunning ts ≤ K) :
    countRunning ts' ≤ K := by
  cases h with
  | start hget hlt =>
    obtain ⟨hlen, hval⟩ := List.getElem?_eq_some_iff.mp hget
    rw [countRunning, List.countP_set _ _ _ _ hlen, hval]
    simpa [countRunning] using hlt
  | finish hget =>
    obtain ⟨hlen, hval⟩ := List.getElem?_eq_some_iff.mp hget
    rw [countRunning, List.countP_set _ _ _ _ hlen, hval]
    simp only [decide_eq_true_eq, reduceCtorEq]
    simp only [decide_eq_true_eq, if_true, if_false, Nat.add_zero]
    exact le_trans (Nat.sub_le _ _) hK

/-- The at-most-`K` bound is invariant along every run. -/
theorem fanExec_countRunning_le {K : Nat} {ts0 ts : List TStatus}
    {ls : List FanLabel} (h : FanExec K ts0 ls ts)
    (h0 : countRunning ts0 ≤ K) : countRunning ts ≤ K := by
  induction h with
  | nil => exact h0
  | cons hstep _ ih => exact ih (countRunning_le_of_step hstep h0)

/-- Whether a task (as an optional status) has already been started:
`running` and `done` tasks have been started, `pending` ones have not. -/
def startedVal : Option TStatus → Nat
  | some .pending => 0
  | some .running => 1
  | some .done => 1
  | none => 0

/-- A step emits a `start i` label exactly when task `i` moves from
unstarted to started. -/
theorem step_startCount {K : Nat} {ts ts' : List TStatus} {l : FanLabel}
    (h : FanStep K ts l ts') (i : Nat) :
    (if l == FanLabel.start i then 1 else 0) + startedVal ts[i]? =
      startedVal ts'[i]? := by
  cases h with
  | @start j hget hlt =>
    obtain ⟨hlen, hval⟩ := List.getElem?_eq_some_iff.mp hget
    by_cases hij : j = i
    · subst hij
      rw [List.getElem?_set_self hlen, hget]
      simp [startedVal]
    · rw [List.getElem?_set_ne hij]
      have : (FanLabel.start j == FanLabel.start i) = false := by
        simp [hij]
      rw [this]
      simp
  | @finish j hget =>
    obtain ⟨hlen, hval⟩ := List.getElem?_eq_some_iff.mp hget
    have hlab : (FanLabel.finish j == FanLabel.start i) = false := by simp
    rw [hlab]
    by_cases hij : j = i
    · subst hij
      rw [List.getElem?_set_self hlen, hget]
      simp [startedVal]
    · rw [List.getElem?_set_ne hij]
      simp

/-- Along a run, the number of `start i` labels in the trace equals the
change in task `i`'s started flag. -/
theorem exec_startCount {K : Nat} {ts0 ts : List TStatus}
    {ls : List FanLabel} (h : FanExec K ts0 ls ts) (i : Nat) :
    ls.count (.start i) + startedVal ts0[i]? = startedVal ts[i]? := by
  induction h with
  | nil => simp
  | @cons ts1 ts2 ts3 l ls1 hstep _ ih =>
    rw [List.count_cons]
    have h1 := step_startCount hstep i
    omega

/-- From a state with `d` done tasks followed by `p` pending tasks, the
fan-out can run to completion (sequentially; one permit suffices). -/
theorem exec_complete_aux {K : Nat} (hK : 1 ≤ K) (p : Nat) :
    ∀ d : Nat, ∃ ls, FanExec K
      (List.replicate d .done ++ List.replicate p .pending) ls
      (List.replicate (d + p) .done) := by
  induction p with
  | zero =>
    intro d
    exact ⟨[], by simpa using FanExec.nil⟩
  | succ p ih =>
    intro d
    obtain ⟨ls, hls⟩ := ih (d + 1)
    have hdlen : (List.replicate d TStatus.done).length = d :=
      List.length_replicate _ _
    have hget1 : (List.replicate d TStatus.done ++
        List.replicate (p + 1) TStatus.pending)[d]? = some TStatus.pending := by
      rw [List.getElem?_append_right (le_of_eq hdlen)]
      simp [List.replicate_succ]
    have hcount : countRunning (List.replicate d TStatus.done ++
        List.replicate (p + 1) TStatus.pending) = 0 := by
      rw [countRunning, List.countP_append, List.countP_replicate,
        List.countP_replicate]
      simp
    have hstep1 : FanStep K
        (List.replicate d TStatus.done ++ List.replicate (p + 1) TStatus.pending)
        (.start d)
        ((List.replicate d TStatus.done ++
          List.replicate (p + 1) TStatus.pending).set d .running) :=
      FanStep.start hget1 (by rw [hcount]; exact hK)
    have hset1 : (List.replicate d TStatus.done ++
        List.replicate (p + 1) TStatus.pending).set d .running =
        List.replicate d TStatus.done ++
          (.running :: List.replicate p TStatus.pending) := by
      rw [List.set_append]
      simp [hdlen, List.replicate_succ]
    have hget2 : (List.replicate d TStatus.done ++
        (TStatus.running :: List.replicate p TStatus.pending))[d]? =
        some TStatus.running := by
      rw [List.getElem?_append_right (le_of_eq hdlen)]
      simp [hdlen]
    have hstep2 : FanStep K
        (List.replicate d TStatus.done ++
          (TStatus.running :: List.replicate p TStatus.pending))
        (.finish d)
        ((List.replicate d TStatus.done ++
          (TStatus.running :: List.replicate p TStatus.pending)).set d .done) :=
      FanStep.finish hget2
    have hset2 : (List.replicate d TStatus.done ++
        (TStatus.running :: List.replicate p TStatus.pending)).set d .done =
        List.replicate (d + 1) TStatus.done ++ List.replicate p TStatus.pending := by
      rw [List.set_append]
      simp [hdlen, List.replicate_succ' (n := d)]
    refine ⟨.start d :: .finish d :: ls, ?_⟩
    refine FanExec.cons hstep1 ?_
    rw [hset1]
    refine FanExec.cons hstep2 ?_
    rw [hset2]
    have harith : d + 1 + p = d + (p + 1) := by omega
    rwa [harith] at hls

/-- C1: in the lint runner's fan-out over `N` files with `--jobs` value
`K ≥ 1`, (a) every reachable state has at most `K` operations in flight,
(b) in every run that completes all `N` tasks each task was started
exactly once, and (c) a completing run exists. -/
theorem lint_fanout_bounded_exactly_once (N K : Nat) (hK : 1 ≤ K) :
    (∀ ls ts, FanExec K (allPending N) ls ts → countRunning ts ≤ K) ∧
    (∀ ls, FanExec K (allPending N) ls (allDone N) →
      ∀ i, i < N → ls.count (.start i) = 1) ∧
    (∃ ls, FanExec K (allPending N) ls (allDone N)) := by
  refine ⟨?_, ?_, ?_⟩
  · intro ls ts h
    refine fanExec_countRunning_le h ?_
    rw [allPending, countRunning, List.countP_replicate]
    simp
  · intro ls h i hi
    have hc := exec_startCount h i
    rw [allPending, allDone] at hc
    rw [List.getElem?_replicate, List.getElem?_replicate] at hc
    simp only [hi, if_true, startedVal] at hc
    omega
  · obtain ⟨ls, hls⟩ := exec_complete_aux hK N 0
    refine ⟨ls, ?_⟩
    simpa [allPending, allDone] using hls

/-- Witness for C1 at `N = 3` files and `--jobs 2`. -/
theorem lint_fanout_bounded_exactly_once_witness :
    1 ≤ 2 ∧
    ((∀ ls ts, FanExec 2 (allPending 3) ls ts → countRunning ts ≤ 2) ∧
    (∀ ls, FanExec 2 (allPending 3) ls (allDone 3) →
      ∀ i, i < 3 → ls.count (.start i) = 1) ∧
    (∃ ls, FanExec 2 (allPending 3) ls (allDone 3))) :=
  ⟨by decide, lint_fanout_bounded_exactly_once 3 2 (by decide)⟩

/-! ## Lint results: `lint_file` and the collection loop of
`lint_all_files` (claims C2, C3)

`asyncio.as_completed` yields the task results in completion order, an
arbitrary permutation of the submitted tasks; the loop body attributes
each result by the file carried inside the result triple itself. -/

/-- The `(file, success, output)` triple returned by `lint_file`. -/
structure LintResult where
  file : PathParts
  success : Bool
  output : String
deriving DecidableEq

/-- `lint_file` (lint.py lines 92–123), with the clang-tidy subprocess
abstracted as `beh`: given the `--fix` flag and the file, `beh` yields the
subprocess's `(returncode, stdout, stderr)`.  The result carries the file
itself, `returncode == 0` as the success flag, and the concatenation of
decoded stdout and stderr as the diagnostic text. -/
def lint_file (beh : Bool → PathParts → Int × String × String)
    (fix : Bool) (file : PathParts) : LintResult :=
  ⟨file, decide ((beh fix file).1 = 0),
    (beh fix file).2.1 ++ (beh fix file).2.2⟩

/-- The `failed_files` list accumulated by the `as_completed` loop
(lint.py lines 150–161): the `(file, output)` pairs of the unsuccessful
results, in completion order. -/
def collectFailed (results : List LintResult) : List (PathParts × String) :=
  results.filterMap
    (fun r => if r.success then none else some (r.file, r.output))

/-- The value returned by `lint_all_files` after the loop has consumed
every result (line 170): `len(failed_files) == 0`. -/
def lint_all_files_ret (results : List LintResult) : Bool :=
  (collectFailed results).isEmpty

/-- Exit decision of lint.py's `main` (lines 204–220): `sys.exit(0)` when
`lint_all_files` reported success and `sys.exit(1)` otherwise; the `--fix`
flag only changes the printed message, not the exit code. -/
def lintMainExit (fix : Bool) (results : List LintResult) : Nat :=
  if lint_all_files_ret results then 0 else 1

theorem collectFailed_length (results : List LintResult) :
    (collectFailed results).length + results.countP (·.success) =
      results.length := by
  induction results with
  | nil => rfl
  | cons r rs ih =>
    by_cases h : r.success <;>
      simp [collectFailed, List.filterMap_cons, h, List.countP_cons] at * <;>
      omega

theorem lint_all_files_ret_eq_all (results : List LintResult) :
    lint_all_files_ret results = results.all (·.success) := by
  induction results with
  | nil => rfl
  | cons r rs ih =>
    rw [lint_all_files_ret, collectFailed] at ih ⊢
    by_cases h : r.success <;> simp [List.filterMap_cons, h, ih]

/-- C2: when the completion order is any permutation of the `N` submitted
per-file operations, the loop still collects exactly `N` results; every
result is the one its own file produced (attribution by the file identity
carried in the triple); the failed list accounts for exactly the failing
results; and the return value is computed only from the full result set. -/
theorem lint_fanout_collects_all (files : List PathParts)
    (beh : Bool → PathParts → Int × String × String) (fix : Bool)
    (results : List LintResult)
    (hperm : results.Perm (files.map (lint_file beh fix))) :
    results.length = files.length ∧
    (∀ r ∈ results, r.file ∈ files ∧ r = lint_file beh fix r.file) ∧
    (collectFailed results).length + results.countP (·.success) =
      files.length ∧
    (∀ e ∈ collectFailed results, e.1 ∈ files ∧
      (lint_file beh fix e.1).success = false ∧
      e.2 = (lint_file beh fix e.1).output) ∧
    lint_all_files_ret results = results.all (·.success) := by
  have hmem : ∀ r ∈ results, r.file ∈ files ∧ r = lint_file beh fix r.file := by
    intro r hr
    have : r ∈ files.map (lint_file beh fix) := hperm.mem_iff.mp hr
    obtain ⟨f, hf, rfl⟩ := List.mem_map.mp this
    exact ⟨hf, rfl⟩
  have hlen : results.length = files.length := by
    rw [hperm.length_eq, List.length_map]
  refine ⟨hlen, hmem, ?_, ?_, lint_all_files_ret_eq_all results⟩
  · rw [collectFailed_length, hlen]
  · intro e he
    obtain ⟨r, hr, hre⟩ := List.mem_filterMap.mp he
    by_cases h : r.success
    · simp [h] at hre
    · rw [if_neg h, Option.some_inj] at hre
      obtain ⟨hf, hrf⟩ := hmem r hr
      subst hre
      rw [Bool.not_eq_true] at h
      refine ⟨hf, ?_, ?_⟩
      · show (lint_file beh fix r.file).success = false
        rw [← hrf]
        exact h
      · show r.output = (lint_file beh fix r.file).output
        rw [← hrf]

/-- Two concrete source files for the lint witnesses. -/
def wFileA : PathParts := ["a.cc".toList]

/-- Second concrete source file. -/
def wFileB : PathParts := ["b.cc".toList]

/-- A concrete clang-tidy behaviour: `a.cc` passes, every other file
fails with a diagnostic on stdout. -/
def wBeh : Bool → PathParts → Int × String × String :=
  fun _ f => if f = wFileA then (0, "", "") else (1, "warning: x", "")

/-- Completion order opposite to submission order for the two files. -/
def wResults : List LintResult :=
  [lint_file wBeh false wFileB, lint_file wBeh false wFileA]

/-- Witness for C2: two files completing in reverse order. -/
theorem lint_fanout_collects_all_witness :
    wResults.Perm ([wFileA, wFileB].map (lint_file wBeh false)) ∧
    (wResults.length = [wFileA, wFileB].length ∧
    (∀ r ∈ wResults, r.file ∈ [wFileA, wFileB] ∧
      r = lint_file wBeh false r.file) ∧
    (collectFailed wResults).length + wResults.countP (·.success) =
      [wFileA, wFileB].length ∧
    (∀ e ∈ collectFailed wResults, e.1 ∈ [wFileA, wFileB] ∧
      (lint_file wBeh false e.1).success = false ∧
      e.2 = (lint_file wBeh false e.1).output) ∧
    lint_all_files_ret wResults = wResults.all (·.success)) :=
  ⟨List.Perm.swap _ _ _,
   lint_fanout_collects_all [wFileA, wFileB] wBeh false wResults
     (List.Perm.swap _ _ _)⟩

/-- C3: with the preconditions met and a non-empty file list, the lint
runner exits 0 iff every per-file clang-tidy invocation returned exit code
0, and exits 1 otherwise — identically in plain and `--fix` mode (the flag
is quantified); and all `N` results are still collected, so a failing file
does not stop the remaining ones. -/
theorem lint_exit_iff_all_pass (files : List PathParts)
    (beh : Bool → PathParts → Int × String × String) (fix : Bool)
    (results : List LintResult) (hne : files ≠ [])
    (hperm : results.Perm (files.map (lint_file beh fix))) :
    (lintMainExit fix results = 0 ↔ ∀ f ∈ files, (beh fix f).1 = 0) ∧
    (lintMainExit fix results = 1 ↔ ¬ ∀ f ∈ files, (beh fix f).1 = 0) ∧
    results.length = files.length := by
  have hall : (results.all (·.success) = true) ↔
      ∀ f ∈ files, (beh fix f).1 = 0 := by
    rw [List.all_eq_true]
    constructor
    · intro h f hf
      have hr : lint_file beh fix f ∈ results :=
        hperm.mem_iff.mpr (List.mem_map.mpr ⟨f, hf, rfl⟩)
      have := h _ hr
      rw [lint_file] at this
      simpa using this
    · intro h r hr
      obtain ⟨f, hf, rfl⟩ :=
        List.mem_map.mp (hperm.mem_iff.mp hr)
      rw [lint_file]
      simpa using h f hf
  have hret : lint_all_files_ret results = results.all (·.success) :=
    lint_all_files_ret_eq_all results
  have hlen : results.length = files.length := by
    rw [hperm.length_eq, List.length_map]
  rw [lintMainExit, hret]
  by_cases h : results.all (·.success) = true
  · rw [if_pos h]
    exact ⟨iff_of_true rfl (hall.mp h),
      iff_of_false (by omega) (not_not_intro (hall.mp h)), hlen⟩
  · rw [if_neg h]
    exact ⟨iff_of_false (by omega) (fun hc => h (hall.mpr hc)),
      iff_of_true rfl (fun hc => h (hall.mpr hc)), hlen⟩

/-- Witness for C3: two files, `b.cc` failing, plain mode; exit code 1. -/
theorem lint_exit_iff_all_pass_witness :
    ([wFileA, wFileB] ≠ ([] : List PathParts)) ∧
    wResults.Perm ([wFileA, wFileB].map (lint_file wBeh false)) ∧
    ((lintMainExit false wResults = 0 ↔
        ∀ f ∈ [wFileA, wFileB], (wBeh false f).1 = 0) ∧
    (lintMainExit false wResults = 1 ↔
        ¬ ∀ f ∈ [wFileA, wFileB], (wBeh false f).1 = 0) ∧
    wResults.length = [wFileA, wFileB].length) :=
  ⟨by decide, List.Perm.swap _ _ _,
   lint_exit_iff_all_pass [wFileA, wFileB] wBeh false wResults
     (by decide) (List.Perm.swap _ _ _)⟩

/-! ## Build orchestrator (`scripts/build.py`), claims C4, C5, C7, C8 -/

/-- Outcome of one child process as captured by `subprocess.run` with
`capture_output=True`: exit code and decoded stdout/stderr. -/
structure ProcResult where
  returncode : Int
  stdout : String
  stderr : String
deriving DecidableEq

/-- `run_command` (build.py lines 44–59): `subprocess.run(..., check=check)`
raises `CalledProcessError` exactly when `check` is set and the child exits
non-zero; the handler prints the captured stderr and stdout and calls
`sys.exit(1)`.  The error value records the script's exit status (always 1)
together with the surfaced stderr and stdout. -/
def run_command (check : Bool) (r : ProcResult) :
    Except (Nat × String × String) ProcResult :=
  if check && !(r.returncode == 0) then .error (1, r.stderr, r.stdout)
  else .ok r

/-- What `main` did with its two sequential `run_command` invocations:
the script's exit code, whether the build invocation was reached, and the
(stderr, stdout) surfaced on failure, if any. -/
structure BuildOutcome where
  exitCode : Nat
  buildRan : Bool
  surfaced : Option (String × String)
deriving DecidableEq

/-- The sequential configure-then-build skeleton of build.py's `main`
(lines 167–220): `run_command(cmake_args)` followed, only on success, by
`run_command(build_args)`; on success of both the script falls through and
exits 0. -/
def buildMain (cfg bld : ProcResult) : BuildOutcome :=
  match run_command true cfg with
  | .error e => ⟨e.1, false, some (e.2.1, e.2.2)⟩
  | .ok _ =>
    match run_command true bld with
    | .error e => ⟨e.1, true, some (e.2.1, e.2.2)⟩
    | .ok _ => ⟨0, true, none⟩

/-- Counterexample to C4: a CMake configuration step exiting with code 2
makes the orchestrator exit with code 1, not with the subprocess's own
exit code 2 — `run_command`'s handler always calls `sys.exit(1)`. -/
theorem build_exit_code_not_propagated :
    (buildMain ⟨2, "", "cfg failed"⟩ ⟨0, "", ""⟩).exitCode = 1 ∧
    (buildMain ⟨2, "", "cfg failed"⟩ ⟨0, "", ""⟩).exitCode ≠ 2 := by
  constructor
  · rfl
  · decide

/-- C4 (amended): when a sequential child invocation exits non-zero, its
captured stderr/stdout is surfaced and the orchestrator terminates with
exit code 1 (a fixed non-zero status, regardless of the child's own code),
skipping the remaining step; when both steps succeed the exit code is 0
and nothing is surfaced. -/
theorem build_error_handling (cfg bld : ProcResult) :
    (cfg.returncode ≠ 0 →
      buildMain cfg bld = ⟨1, false, some (cfg.stderr, cfg.stdout)⟩) ∧
    (cfg.returncode = 0 → bld.returncode ≠ 0 →
      buildMain cfg bld = ⟨1, true, some (bld.stderr, bld.stdout)⟩) ∧
    (cfg.returncode = 0 → bld.returncode = 0 →
      buildMain cfg bld = ⟨0, true, none⟩) := by
  refine ⟨?_, ?_, ?_⟩
  · intro h
    rw [buildMain, run_command, if_pos (by simpa using h)]
  · intro h1 h2
    rw [buildMain, run_command, if_neg (by simp [h1]), run_command,
      if_pos (by simpa using h2)]
  · intro h1 h2
    rw [buildMain, run_command, if_neg (by simp [h1]), run_command,
      if_neg (by simp [h2])]

/-- Witness for the amended C4: configure fails with stderr "err",
build never runs, script exits 1; and two clean runs exit 0. -/
theorem build_error_handling_witness :
    ((2 : Int) ≠ 0 ∧
      buildMain ⟨2, "out", "err"⟩ ⟨0, "", ""⟩ = ⟨1, false, some ("err", "out")⟩) ∧
    ((0 : Int) = 0 ∧ (0 : Int) = 0 ∧
      buildMain ⟨0, "", ""⟩ ⟨0, "", ""⟩ = ⟨0, true, none⟩) :=
  ⟨⟨by decide, (build_error_handling ⟨2, "out", "err"⟩ ⟨0, "", ""⟩).1 (by decide)⟩,
   ⟨rfl, rfl, (build_error_handling ⟨0, "", ""⟩ ⟨0, "", ""⟩).2.2 rfl rfl⟩⟩

/-! ## Claim C5: vcpkg toolchain resolution -/

/-- The fixed candidate list of `find_vcpkg_toolchain` (build.py lines
64–69) in source order: local vcpkg, user vcpkg under the home directory,
system vcpkg on Linux/macOS, system vcpkg on Windows. -/
def possible_locations (home : String) : List String :=
  ["vcpkg/scripts/buildsystems/vcpkg.cmake",
   home ++ "/vcpkg/scripts/buildsystems/vcpkg.cmake",
   "/usr/local/share/vcpkg/scripts/buildsystems/vcpkg.cmake",
   "C:/vcpkg/scripts/buildsystems/vcpkg.cmake"]

/-- `find_vcpkg_toolchain` (build.py lines 62–82).  `fsExists` is
`Path.exists`, `resolve` is `Path.resolve` (pure path normalization),
`vcpkgRoot` is `os.environ.get("VCPKG_ROOT")` (`none` when unset).  The
loop over the fixed locations returns the first existing one; only when
the loop falls through is the environment variable consulted (Python
truthiness: a set-but-empty value is skipped), and its derived toolchain
path is returned only if that file exists. -/
def find_vcpkg_toolchain (home : String) (fsExists : String → Bool)
    (resolve : String → String) (vcpkgRoot : Option String) : Option String :=
  match (possible_locations home).find? fsExists with
  | some loc => some (resolve loc)
  | none =>
    match vcpkgRoot with
    | some root =>
      if root ≠ "" then
        if fsExists (root ++ "/scripts/buildsystems/vcpkg.cmake") then
          some (resolve (root ++ "/scripts/buildsystems/vcpkg.cmake"))
        else none
      else none
    | none => none

/-- `find?` returns the element at the first position satisfying the
predicate. -/
theorem find?_eq_of_first {α : Type} (p : α → Bool) :
    ∀ (l : List α) (i : Nat) (a : α), l[i]? = some a → p a = true →
      (∀ j, j < i → ∀ b, l[j]? = some b → p b = false) →
      l.find? p = some a := by
  intro l
  induction l with
  | nil => intro i a h; simp at h
  | cons x xs ih =>
    intro i a hget hp hprev
    cases i with
    | zero =>
      simp only [List.getElem?_cons_zero, Option.some_inj] at hget
      subst hget
      exact List.find?_cons_of_pos _ hp
    | succ i =>
      have hx : p x = false := hprev 0 (Nat.succ_pos _) x (by simp)
      rw [List.find?_cons_of_neg _ (by simp [hx])]
      exact ih i a (by simpa using hget) hp
        (fun j hj b hb => hprev (j + 1) (by omega) b (by simpa using hb))

/-- C5: (a) the fixed locations are scanned in source order and the first
existing one is returned (whatever the environment variable holds); (b) the
environment variable is consulted only when none of the fixed locations
exist, and its toolchain file is selected when it exists; (c) otherwise
resolution yields no toolchain. -/
theorem vcpkg_toolchain_resolution (home : String) (fsExists : String → Bool)
    (resolve : String → String) (vcpkgRoot : Option String) :
    (∀ (i : Nat) (loc : String), (possible_locations home)[i]? = some loc →
      fsExists loc = true →
      (∀ j, j < i → ∀ loc0, (possible_locations home)[j]? = some loc0 →
        fsExists loc0 = false) →
      find_vcpkg_toolchain home fsExists resolve vcpkgRoot =
        some (resolve loc)) ∧
    ((∀ loc ∈ possible_locations home, fsExists loc = false) →
      ∀ root, vcpkgRoot = some root → root ≠ "" →
        fsExists (root ++ "/scripts/buildsystems/vcpkg.cmake") = true →
        find_vcpkg_toolchain home fsExists resolve vcpkgRoot =
          some (resolve (root ++ "/scripts/buildsystems/vcpkg.cmake"))) ∧
    ((∀ loc ∈ possible_locations home, fsExists loc = false) →
      (∀ root, vcpkgRoot = some root → root ≠ "" →
        fsExists (root ++ "/scripts/buildsystems/vcpkg.cmake") = false) →
      find_vcpkg_toolchain home fsExists resolve vcpkgRoot = none) := by
  have hnone : (∀ loc ∈ possible_locations home, fsExists loc = false) →
      (possible_locations home).find? fsExists = none := by
    intro h
    rw [List.find?_eq_none]
    intro x hx
    simp [h x hx]
  refine ⟨?_, ?_, ?_⟩
  · intro i loc hget hex hprev
    rw [find_vcpkg_toolchain.eq_def, find?_eq_of_first fsExists _ i loc hget hex hprev]
  · intro hall root hroot hne hex
    rw [find_vcpkg_toolchain.eq_def, hnone hall, hroot]
    simp only [if_pos hne, hex, if_true]
  · intro hall henv
    rw [find_vcpkg_toolchain.eq_def, hnone hall]
    match vcpkgRoot with
    | none => rfl
    | some root =>
      by_cases hr : root = ""
      · simp [hr]
      · have := henv root rfl hr
        simp [hr, this]

/-- Concrete filesystem for the C5 witness: only the toolchain file below
the environment-variable root exists. -/
def wExists : String → Bool :=
  fun s => s == "/vr/scripts/buildsystems/vcpkg.cmake"

/-- Witness for C5: no fixed location exists, `VCPKG_ROOT=/vr` points at an
existing toolchain file, which resolution selects. -/
theorem vcpkg_toolchain_resolution_witness :
    (∀ loc ∈ possible_locations "/h", wExists loc = false) ∧
    ("/vr" : String) ≠ "" ∧
    wExists ("/vr" ++ "/scripts/buildsystems/vcpkg.cmake") = true ∧
    find_vcpkg_toolchain "/h" wExists id (some "/vr") =
      some (id ("/vr" ++ "/scripts/buildsystems/vcpkg.cmake")) :=
  ⟨by decide, by decide, by decide,
   (vcpkg_toolchain_resolution "/h" wExists id (some "/vr")).2.1
     (by decide) "/vr" rfl (by decide) (by decide)⟩

/-! ## Claim C7: the `--clean` flag -/

/-- State of the build-output directory: whether it exists and the files
inside it. -/
structure BuildDirState where
  present : Bool
  contents : List String
deriving DecidableEq

/-- build.py lines 142–152: `if clean and build_dir.exists():
shutil.rmtree(build_dir)`.  Returns the new state together with whether
the recursive removal was performed. -/
def cleanStep (clean : Bool) (st : BuildDirState) : BuildDirState × Bool :=
  if clean && st.present then (⟨false, []⟩, true) else (st, false)

/-- build.py line 155: `build_dir.mkdir(exist_ok=True)` — creates the
directory empty when absent, leaves it untouched when present. -/
def mkdirStep (st : BuildDirState) : BuildDirState :=
  if st.present then st else ⟨true, []⟩

/-- Everything build.py does to the build directory before the CMake
configuration step runs (lines 142–155). -/
def preConfigure (clean : Bool) (st : BuildDirState) : BuildDirState × Bool :=
  (mkdirStep (cleanStep clean st).1, (cleanStep clean st).2)

/-- C7: with `--clean` and an existing build directory, the directory is
removed entirely (removal performed, contents empty) before configuration;
without `--clean`, no removal occurs and an existing directory with its
contents is exactly preserved. -/
theorem clean_flag_frame (clean : Bool) (st : BuildDirState) :
    (clean = true → st.present = true →
      (preConfigure clean st).2 = true ∧
      (preConfigure clean st).1.contents = []) ∧
    (clean = false →
      (preConfigure clean st).2 = false ∧
      (st.present = true → (preConfigure clean st).1 = st)) := by
  constructor
  · rintro rfl hp
    simp [preConfigure, cleanStep, mkdirStep, hp]
  · rintro rfl
    refine ⟨by simp [preConfigure, cleanStep], ?_⟩
    intro hp
    simp [preConfigure, cleanStep, mkdirStep, hp]

/-- Witness for C7 at a directory holding one stale object file, in both
the `--clean` and the plain run. -/
theorem clean_flag_frame_witness :
    ((true : Bool) = true ∧
      (BuildDirState.mk true ["old.o"]).present = true ∧
      ((preConfigure true ⟨true, ["old.o"]⟩).2 = true ∧
        (preConfigure true ⟨true, ["old.o"]⟩).1.contents = [])) ∧
    ((false : Bool) = false ∧
      ((preConfigure false ⟨true, ["old.o"]⟩).2 = false ∧
        ((BuildDirState.mk true ["old.o"]).present = true →
          (preConfigure false ⟨true, ["old.o"]⟩).1 = ⟨true, ["old.o"]⟩))) :=
  ⟨⟨rfl, rfl, (clean_flag_frame true ⟨true, ["old.o"]⟩).1 rfl rfl⟩,
   ⟨rfl, (clean_flag_frame false ⟨true, ["old.o"]⟩).2 rfl⟩⟩

/-! ## Claim C8: the `--parallel` degree -/

/-- `os.cpu_count() or 4`: the detected processor count when truthy
(set and non-zero), else the fixed default 4. -/
def cpuOr4 (cpu_count : Option Nat) : Int :=
  match cpu_count with
  | some c => if c ≠ 0 then (c : Int) else 4
  | none => 4

/-- build.py line 214: `parallel_jobs = jobs or os.cpu_count() or 4`.
Python `or` returns its left operand when truthy; an explicit `--jobs 0`
is falsy and falls through to the processor count. -/
def parallel_jobs (jobs : Option Int) (cpu_count : Option Nat) : Int :=
  match jobs with
  | some j => if j ≠ 0 then j else cpuOr4 cpu_count
  | none => cpuOr4 cpu_count

/-- Counterexample to C8: the explicit value `--jobs 0` is not passed to
`--parallel`; with a detected processor count of 8 the build gets
`--parallel 8`, not `--parallel 0`, because Python's `or` treats 0 as
falsy. -/
theorem parallel_jobs_zero_not_passed :
    parallel_jobs (some 0) (some 8) = 8 ∧
    parallel_jobs (some 0) (some 8) ≠ 0 := by
  constructor <;> decide

/-- C8 (amended): every explicit non-zero `--jobs` value is passed exactly
to `--parallel`; an explicit `--jobs 0` behaves like an absent value,
falling back to the detected processor count when non-zero, else to the
fixed default 4. -/
theorem parallel_jobs_policy (cpu : Option Nat) :
    (∀ j : Int, j ≠ 0 → parallel_jobs (some j) cpu = j) ∧
    (∀ c : Nat, c ≠ 0 → parallel_jobs none (some c) = c) ∧
    parallel_jobs none none = 4 ∧
    (∀ cpu2, parallel_jobs (some 0) cpu2 = parallel_jobs none cpu2) := by
  refine ⟨?_, ?_, rfl, ?_⟩
  · intro j hj
    rw [parallel_jobs, if_pos hj]
  · intro c hc
    show cpuOr4 (some c) = c
    rw [cpuOr4, if_pos hc]
  · intro cpu2
    show (if (0 : Int) ≠ 0 then (0 : Int) else cpuOr4 cpu2) = cpuOr4 cpu2
    rw [if_neg (by simp)]

/-- Witness for the amended C8: `--jobs 5` passes 5; no `--jobs` with 8
detected cores passes 8; nothing detected passes 4; `--jobs 0` equals the
absent case. -/
theorem parallel_jobs_policy_witness :
    ((5 : Int) ≠ 0 ∧ parallel_jobs (some 5) (some 8) = 5) ∧
    ((8 : Nat) ≠ 0 ∧ parallel_jobs none (some 8) = 8) ∧
    parallel_jobs none none = 4 ∧
    parallel_jobs (some 0) (some 8) = parallel_jobs none (some 8) :=
  ⟨⟨by decide, (parallel_jobs_policy (some 8)).1 5 (by decide)⟩,
   ⟨by decide, (parallel_jobs_policy (some 8)).2.1 8 (by decide)⟩,
   (parallel_jobs_policy none).2.2.1,
   (parallel_jobs_policy (some 8)).2.2.2 (some 8)⟩

/-! ## Claim C9: formatter apply mode aborts on the first failure

`format_file` (format.py lines 54–59) runs
`subprocess.run(["clang-format", "-i", file], check=True)`: a non-zero
exit raises `CalledProcessError`.  The apply-mode loop of `main`
(lines 97–104) calls it for each discovered file in sorted order inside
no try/except, so the exception propagates out of `main` and the remaining
files are never reached. -/

/-- `format_file` with the clang-format in-place invocation abstracted as
its exit code `fmt file`: ok on zero, an uncaught `CalledProcessError`
carrying the file and code otherwise. -/
def format_file (fmt : PathParts → Int) (f : PathParts) :
    Except (PathParts × Int) Unit :=
  if fmt f = 0 then .ok () else .error (f, fmt f)

/-- The apply-mode loop: the list of files actually formatted (in
discovery order) and the propagated exception, if any.  A raised
`CalledProcessError` stops the loop at once; there is no accumulation of
per-file failures. -/
def formatApplyRun (fmt : PathParts → Int) :
    List PathParts → List PathParts × Option (PathParts × Int)
  | [] => ([], none)
  | f :: fs =>
    match format_file fmt f with
    | .ok _ =>
      let r := formatApplyRun fmt fs
      (f :: r.1, r.2)
    | .error e => ([], some e)

/-- C9: if every file before `f` formats cleanly and clang-format exits
non-zero on `f`, the apply run formats exactly the files before `f`,
terminates with the single uncaught error for `f`, and never touches the
files after `f`. -/
theorem format_apply_aborts (fmt : PathParts → Int)
    (pre : List PathParts) (f : PathParts) (post : List PathParts)
    (hpre : ∀ g ∈ pre, fmt g = 0) (hf : fmt f ≠ 0) :
    formatApplyRun fmt (pre ++ f :: post) = (pre, some (f, fmt f)) := by
  induction pre with
  | nil =>
    rw [List.nil_append, formatApplyRun, format_file, if_neg hf]
  | cons g gs ih =>
    have hg : fmt g = 0 := hpre g (List.mem_cons_self _ _)
    have htail : ∀ x ∈ gs, fmt x = 0 :=
      fun x hx => hpre x (List.mem_cons_of_mem _ hx)
    rw [List.cons_append, formatApplyRun, format_file, if_pos hg]
    rw [ih htail]

/-- Third concrete file for the C9 witness. -/
def wFileC : PathParts := ["c.cc".toList]

/-- clang-format behaviour for the C9 witness: fails on `b.cc` only. -/
def wFmt : PathParts → Int := fun f => if f = wFileB then 1 else 0

/-- Witness for C9: of `[a.cc, b.cc, c.cc]`, only `a.cc` is formatted;
the run stops at `b.cc` with its error and `c.cc` is untouched. -/
theorem format_apply_aborts_witness :
    (∀ g ∈ [wFileA], wFmt g = 0) ∧ wFmt wFileB ≠ 0 ∧
    formatApplyRun wFmt ([wFileA] ++ wFileB :: [wFileC]) =
      ([wFileA], some (wFileB, wFmt wFileB)) :=
  ⟨by decide, by decide,
   format_apply_aborts wFmt [wFileA] wFileB [wFileC] (by decide) (by decide)⟩
